import Mathlib

/-!
Shallow embedding of the Multi-Lens RAG enterprise pipeline
(backend/services/enterprise_rag_pipeline.py, backend/config/enterprise_config.py,
backend/routes/enterprise.py, backend/db/mongodb_client.py) together with proofs
settling the frozen claims about context optimization, caching, configuration
updates, the missing-data retry, breadth selection, the quality gate, and
document deletion.

Modelling conventions: Python float constants (1.3, 0.4, 0.5, ...) and scores
are modelled exactly as rationals; strings are modelled over their character
lists, with Python str.lower modelled as ASCII lowering and str.split with no
arguments as splitting on whitespace runs.  External collaborators (embedding
service, vector store, the language model, NLP entity extraction, rich-content
rendering) are inputs of the modelled functions, matching the interface the
specification carves out.
-/

namespace MultiLens

set_option allowUnsafeReducibility true

attribute [local semireducible] Rat.mul Rat.add Rat.sub Rat.inv

/-- Boolean test: the first list is an initial segment of the second
(Python startswith over char lists). -/
def beginsWith : List Char → List Char → Bool
  | [], _ => true
  | _ :: _, [] => false
  | a :: pat, b :: l => a == b && beginsWith pat l

/-- Python substring test `needle in hay`, over char lists. -/
def hasSub (needle : List Char) : List Char → Bool
  | [] => needle.isEmpty
  | c :: rest => beginsWith needle (c :: rest) || hasSub needle rest

/-- ASCII lowering of a string, modelling Python str.lower on the ASCII
text this repository works with. -/
def pyLower (s : String) : String := ⟨s.data.map Char.toLower⟩

/-- Python containment `needle in hay`. -/
def pyContains (hay needle : String) : Bool := hasSub needle.data hay.data

/-- Helper for `wordCount`: counts maximal non-whitespace runs, the flag
records whether the previous character was inside a word. -/
def countRuns : Bool → List Char → Nat
  | _, [] => 0
  | inWord, c :: rest =>
    if c.isWhitespace then countRuns false rest
    else (if inWord then 0 else 1) + countRuns true rest

/-- Python `len(s.split())`: the number of whitespace-separated words. -/
def wordCount (s : String) : Nat := countRuns false s.data

/-- Python str.strip(): drop whitespace from both ends. -/
def pyStrip (s : String) : String :=
  ⟨((s.data.dropWhile Char.isWhitespace).reverse.dropWhile Char.isWhitespace).reverse⟩

/-- Keyword list of `EnterpriseRAGPipeline._is_analytical_query`. -/
def analyticalKeywords : List String :=
  ["average", "avg", "mean", "sum", "total", "count", "percentage", "%",
   "best", "worst", "top", "bottom", "highest", "lowest", "maximum", "minimum",
   "compare", "comparison", "versus", "vs", "against", "between",
   "performance", "efficiency", "rate", "ratio", "metric", "kpi",
   "wise", "by carrier", "by region", "by type", "group by", "breakdown",
   "trend", "analysis", "analytics", "statistics", "stats",
   "distribution", "correlation", "variance", "deviation"]

/-- `EnterpriseRAGPipeline._is_analytical_query`: case-insensitive substring
match of the query against the fixed keyword list. -/
def isAnalyticalQuery (query : String) : Bool :=
  analyticalKeywords.any (fun kw => pyContains (pyLower query) kw)

/-- `EnterpriseRAGPipeline._get_dynamic_top_k`: retrieval breadth chosen from
the query class. -/
def getDynamicTopK (query : String) (baseTopK : Nat) : Nat :=
  if isAnalyticalQuery query then
    if ["all", "every", "total", "complete"].any (fun w => pyContains (pyLower query) w) then 50
    else if ["compare", "versus", "vs", "between"].any (fun w => pyContains (pyLower query) w) then 40
    else if ["average", "mean", "performance", "wise"].any (fun w => pyContains (pyLower query) w) then 30
    else 20
  else baseTopK

/-- Breadth selection exactly as claim C9 words it: 50 if the query is
analytical and contains all/every/total/complete; else 40 if analytical with a
comparison term; else 30 if analytical with average/mean/performance/wise; else
20 if analytical; else the base value unchanged. -/
def claimedBreadth (query : String) (baseTopK : Nat) : Nat :=
  if isAnalyticalQuery query
      && ["all", "every", "total", "complete"].any (fun w => pyContains (pyLower query) w) then 50
  else if isAnalyticalQuery query
      && ["compare", "versus", "vs", "between"].any (fun w => pyContains (pyLower query) w) then 40
  else if isAnalyticalQuery query
      && ["average", "mean", "performance", "wise"].any (fun w => pyContains (pyLower query) w) then 30
  else if isAnalyticalQuery query then 20
  else baseTopK

/-- C9: the breadth-selection operation returns 50 for analytical queries
containing all/every/total/complete, else 40 for comparison terms, else 30 for
average/mean/performance/wise, else 20 when analytical, else base_top_k
unchanged; moreover the query about average delivery time by carrier is
analytical with breadth 30, and a plain greeting is non-analytical with breadth
equal to the base value 8. -/
theorem C9_breadth_selection :
    (∀ (query : String) (baseTopK : Nat),
        getDynamicTopK query baseTopK = claimedBreadth query baseTopK)
    ∧ isAnalyticalQuery "what is the average delivery time by carrier" = true
    ∧ getDynamicTopK "what is the average delivery time by carrier" 8 = 30
    ∧ isAnalyticalQuery "hello, how are you" = false
    ∧ getDynamicTopK "hello, how are you" 8 = 8 := by
  refine ⟨fun query baseTopK => ?_, by decide, by decide, by decide, by decide⟩
  unfold getDynamicTopK claimedBreadth
  by_cases h : isAnalyticalQuery query = true <;> simp [h]

/-! ## Query cache (EnterpriseRAGPipeline.query_cache and _cache_result) -/

/-- A Python dict with string keys, modelled as an association list in
insertion order (CPython dicts preserve insertion order). -/
abbrev PyDict (V : Type) := List (String × V)

/-- Python `d.get(k)` / `d[k]`: the value of the first (unique) entry with
the given key. -/
def dictFind {V : Type} (d : PyDict V) (k : String) : Option V :=
  (d.find? (fun p => p.1 == k)).map (fun p => p.2)

/-- Python `k in d`. -/
def dictHasKey {V : Type} (d : PyDict V) (k : String) : Bool :=
  d.any (fun p => p.1 == k)

/-- Python `d[k] = v`: overwrite in place when the key is present, otherwise
append a fresh entry at the end. -/
def dictInsert {V : Type} (d : PyDict V) (k : String) (v : V) : PyDict V :=
  if dictHasKey d k then d.map (fun p => if p.1 == k then (k, v) else p)
  else d ++ [(k, v)]

/-- `EnterpriseRAGPipeline._cache_result`: when the cache has reached
`cache_max_size`, delete the 50 oldest entries in one batch, then store the
result under its key. -/
def cacheResultOp {V : Type} (cacheMaxSize : Nat) (cache : PyDict V)
    (key : String) (v : V) : PyDict V :=
  dictInsert (if cacheMaxSize ≤ cache.length then cache.drop 50 else cache) key v

/-- Iterated `_cache_result` over a list of key/value pairs, oldest first. -/
def insertSeq {V : Type} (maxSize : Nat) (cache : PyDict V)
    (pairs : List (String × V)) : PyDict V :=
  pairs.foldl (fun c kv => cacheResultOp maxSize c kv.1 kv.2) cache

/-- The eviction scenario of claim C2: starting from an empty cache of maximum
size `N`, insert `N + 1` results under the keys `key 0, ..., key N` in order. -/
def fifoScenario {V : Type} (N : Nat) (key : Nat → String) (val : Nat → V) :
    PyDict V :=
  insertSeq N [] ((List.range (N + 1)).map (fun i => (key i, val i)))

theorem dictFind_eq_none {V : Type} {d : PyDict V} {k : String}
    (h : ∀ p ∈ d, p.1 ≠ k) : dictFind d k = none := by
  unfold dictFind
  rw [List.find?_eq_none.mpr]
  · rfl
  · intro p hp
    simpa using h p hp

theorem dictFind_append_sing {V : Type} {d : PyDict V} {k : String} {v : V}
    (h : ∀ p ∈ d, p.1 ≠ k) : dictFind (d ++ [(k, v)]) k = some v := by
  induction d with
  | nil => simp [dictFind, List.find?]
  | cons p d ih =>
    have hp : p.1 ≠ k := h p (by simp)
    have : (p.1 == k) = false := by simpa using hp
    simp only [dictFind, List.cons_append, List.find?_cons, this]
    exact ih (fun q hq => h q (by simp [hq]))

theorem dictFind_mem_of_pairwise {V : Type} {d : PyDict V} {k : String} {v : V}
    (hnd : d.Pairwise (fun a b => a.1 ≠ b.1)) (hmem : (k, v) ∈ d) :
    dictFind d k = some v := by
  induction d with
  | nil => cases hmem
  | cons p d ih =>
    rcases List.mem_cons.mp hmem with hp | hp
    · subst hp
      simp [dictFind, List.find?_cons]
    · have hk : p.1 ≠ k := by
        have := (List.pairwise_cons.mp hnd).1 (k, v) hp
        simpa using this
      have : (p.1 == k) = false := by simpa using hk
      simp only [dictFind, List.find?_cons, this]
      exact ih (List.pairwise_cons.mp hnd).2 hp

theorem dictHasKey_eq_false {V : Type} {d : PyDict V} {k : String}
    (h : ∀ p ∈ d, p.1 ≠ k) : dictHasKey d k = false := by
  unfold dictHasKey
  rw [List.any_eq_false]
  intro p hp
  simpa using h p hp

/-- Filling a cache below its limit with fresh distinct keys just appends the
entries in order. -/
theorem insertSeq_fill {V : Type} {maxSize : Nat} :
    ∀ (pairs : List (String × V)) (c : PyDict V),
      c.length + pairs.length ≤ maxSize →
      (∀ kv ∈ pairs, ∀ p ∈ c, p.1 ≠ kv.1) →
      pairs.Pairwise (fun a b => a.1 ≠ b.1) →
      insertSeq maxSize c pairs = c ++ pairs
  | [], c, _, _, _ => by simp [insertSeq]
  | kv :: rest, c, hlen, hfresh, hpw => by
    have hlt : ¬ maxSize ≤ c.length := by
      simp only [List.length_cons] at hlen
      omega
    have hnk : dictHasKey c kv.1 = false :=
      dictHasKey_eq_false (fun p hp => hfresh kv (by simp) p hp)
    have step : cacheResultOp maxSize c kv.1 kv.2 = c ++ [kv] := by
      simp [cacheResultOp, dictInsert, hlt, hnk]
    have tail := @insertSeq_fill V maxSize rest (c ++ [kv])
      (by
        simp only [List.length_cons] at hlen
        simp only [List.length_append, List.length_cons, List.length_nil]
        omega)
      (by
        intro kv' hkv' p hp
        rcases List.mem_append.mp hp with hp | hp
        · exact hfresh kv' (by simp [hkv']) p hp
        · have : p = kv := by simpa using hp
          subst this
          exact (List.pairwise_cons.mp hpw).1 kv' hkv')
      (List.pairwise_cons.mp hpw).2
    calc insertSeq maxSize c (kv :: rest)
        = insertSeq maxSize (c ++ [kv]) rest := by
          simp [insertSeq, step]
      _ = (c ++ [kv]) ++ rest := tail
      _ = c ++ (kv :: rest) := by simp

theorem mem_drop_range {m n i : Nat} :
    i ∈ (List.range n).drop m ↔ m ≤ i ∧ i < n := by
  rw [List.mem_iff_getElem]
  constructor
  · rintro ⟨j, hj, hget⟩
    rw [List.getElem_drop] at hget
    rw [List.getElem_range] at hget
    rw [List.length_drop, List.length_range] at hj
    omega
  · rintro ⟨h1, h2⟩
    refine ⟨i - m, ?_, ?_⟩
    · rw [List.length_drop, List.length_range]; omega
    · rw [List.getElem_drop, List.getElem_range]; omega

/-- Normal form of the C2 scenario: the batch eviction drops the oldest 50
entries (all entries when `N ≤ 50`), then the final key is appended. -/
theorem fifoScenario_eq {V : Type} (N : Nat) (key : Nat → String) (val : Nat → V)
    (hinj : ∀ i j, i ≤ N → j ≤ N → key i = key j → i = j) :
    fifoScenario N key val =
      ((List.range N).map (fun i => (key i, val i))).drop 50 ++ [(key N, val N)] := by
  have hpwN : ((List.range N).map (fun i => (key i, val i))).Pairwise
      (fun a b => a.1 ≠ b.1) := by
    rw [List.pairwise_map]
    refine (List.pairwise_lt_range N).imp_of_mem ?_
    intro i j hi hj hlt heq
    exact absurd (hinj i j (le_of_lt (List.mem_range.mp hi)) (le_of_lt (List.mem_range.mp hj)) heq) (Nat.ne_of_lt hlt)
  have hfill : insertSeq N [] ((List.range N).map (fun i => (key i, val i)))
      = (List.range N).map (fun i => (key i, val i)) := by
    have := @insertSeq_fill V N
      ((List.range N).map (fun i => (key i, val i))) []
      (by simp) (by simp) hpwN
    simpa using this
  have hsplit : fifoScenario N key val =
      cacheResultOp N ((List.range N).map (fun i => (key i, val i))) (key N) (val N) := by
    unfold fifoScenario insertSeq
    rw [List.range_succ, List.map_append, List.foldl_append]
    simp only [List.map_cons, List.map_nil, List.foldl_cons, List.foldl_nil]
    rw [show List.foldl (fun c kv => cacheResultOp N c kv.1 kv.2) []
        ((List.range N).map fun i => (key i, val i))
      = insertSeq N [] ((List.range N).map fun i => (key i, val i)) from rfl, hfill]
  rw [hsplit]
  have hlen : N ≤ ((List.range N).map (fun i => (key i, val i))).length := by
    simp
  have hnk : dictHasKey (((List.range N).map (fun i => (key i, val i))).drop 50)
      (key N) = false := by
    refine dictHasKey_eq_false ?_
    intro p hp
    have hp' := List.drop_subset _ _ hp
    rcases List.mem_map.mp hp' with ⟨i, hi, rfl⟩
    have hiN : i < N := List.mem_range.mp hi
    intro heq
    exact absurd (hinj i N (le_of_lt hiN) (le_refl N) heq) (Nat.ne_of_lt hiN)
  simp [cacheResultOp, dictInsert, hlen, hnk]

/-- C2 counterexample: with maximum size 2, inserting the three distinct keys
k0, k1, k2 in order evicts BOTH k0 and k1 (the batch removes the oldest 50
entries, here the whole cache), so k1 — one of the two most recently inserted
keys — is not retrievable, contrary to the claim. -/
theorem C2_claim_counterexample :
    dictFind (fifoScenario 2 (fun i => ⟨List.replicate i 'a'⟩) (fun i : Nat => i)) ⟨['a']⟩ = none
    ∧ dictFind (fifoScenario 2 (fun i => ⟨List.replicate i 'a'⟩) (fun i : Nat => i)) ⟨[]⟩ = none
    ∧ dictFind (fifoScenario 2 (fun i => ⟨List.replicate i 'a'⟩) (fun i : Nat => i)) ⟨['a', 'a']⟩
        = some 2 := by
  refine ⟨?_, ?_, ?_⟩ <;> rfl

/-- C2 amended: with maximum size `N` and `N + 1` distinct keys inserted in
order, eviction removes the oldest `min 50 N` entries in one batch, so a key is
retrievable afterwards exactly when it is the last key or one of the keys from
position 50 onwards; in particular the first key is never retrievable, but for
`N ≥ 2` the most recent `N` keys do NOT all remain retrievable. -/
theorem C2_fifo_batch_eviction {V : Type} (N : Nat) (key : Nat → String)
    (val : Nat → V) (hinj : ∀ i j, i ≤ N → j ≤ N → key i = key j → i = j)
    (hN : 1 ≤ N) :
    dictFind (fifoScenario N key val) (key 0) = none
    ∧ dictFind (fifoScenario N key val) (key N) = some (val N)
    ∧ ∀ j ≤ N, dictFind (fifoScenario N key val) (key j)
        = if 50 ≤ j ∨ j = N then some (val j) else none := by
  rw [fifoScenario_eq N key val hinj]
  set body := ((List.range N).map (fun i => (key i, val i))).drop 50 with hbody
  have hmem_body : ∀ p ∈ body, ∃ i, 50 ≤ i ∧ i < N ∧ p = (key i, val i) := by
    intro p hp
    rw [hbody, ← List.map_drop] at hp
    rcases List.mem_map.mp hp with ⟨i, hi, rfl⟩
    rcases mem_drop_range.mp hi with ⟨h1, h2⟩
    exact ⟨i, h1, h2, rfl⟩
  have hkey_body : ∀ p ∈ body, ∀ j, j ≤ N → (50 ≤ j ∧ j < N → p ≠ (key j, val j) → p.1 ≠ key j)
      ∧ (¬ (50 ≤ j ∧ j < N) → j ≠ N → p.1 ≠ key j) := by
    intro p hp j hjN
    rcases hmem_body p hp with ⟨i, h50, hiN, rfl⟩
    constructor
    · intro _ hne heq
      have := hinj i j (le_of_lt hiN) hjN heq
      exact hne (by rw [this])
    · intro hout _ heq
      have := hinj i j (le_of_lt hiN) hjN heq
      omega
  have hpw_body : body.Pairwise (fun a b => a.1 ≠ b.1) := by
    refine List.Pairwise.sublist (List.drop_sublist _ _) ?_
    rw [List.pairwise_map]
    refine (List.pairwise_lt_range N).imp_of_mem ?_
    intro i j hi hj hlt heq
    exact absurd (hinj i j (le_of_lt (List.mem_range.mp hi)) (le_of_lt (List.mem_range.mp hj)) heq)
      (Nat.ne_of_lt hlt)
  have hfind : ∀ j ≤ N, dictFind (body ++ [(key N, val N)]) (key j)
      = if 50 ≤ j ∨ j = N then some (val j) else none := by
    intro j hjN
    by_cases hcase : 50 ≤ j ∨ j = N
    · rw [if_pos hcase]
      rcases hcase with h50 | hj_eq
      · rcases Nat.lt_or_ge j N with hjlt | hjge
        · -- key j sits inside the kept tail of the old cache
          have hmem : (key j, val j) ∈ body := by
            rw [hbody, ← List.map_drop]
            exact List.mem_map.mpr ⟨j, mem_drop_range.mpr ⟨h50, hjlt⟩, rfl⟩
          have hpw_all : (body ++ [(key N, val N)]).Pairwise (fun a b => a.1 ≠ b.1) := by
            rw [List.pairwise_append]
            refine ⟨hpw_body, by simp, ?_⟩
            intro a ha b hb
            rcases hmem_body a ha with ⟨i, _, hiN, rfl⟩
            have hbN : b = (key N, val N) := by simpa using hb
            subst hbN
            intro heq
            exact absurd (hinj i N (le_of_lt hiN) (le_refl N) heq) (Nat.ne_of_lt hiN)
          exact dictFind_mem_of_pairwise hpw_all (List.mem_append.mpr (Or.inl hmem))
        · have hjeq : j = N := le_antisymm hjN hjge
          rw [hjeq]
          refine dictFind_append_sing ?_
          intro p hp
          rcases hmem_body p hp with ⟨i, _, hiN, rfl⟩
          intro heq
          exact absurd (hinj i N (le_of_lt hiN) (le_refl N) heq) (Nat.ne_of_lt hiN)
      · rw [hj_eq]
        refine dictFind_append_sing ?_
        intro p hp
        rcases hmem_body p hp with ⟨i, _, hiN, rfl⟩
        intro heq
        exact absurd (hinj i N (le_of_lt hiN) (le_refl N) heq) (Nat.ne_of_lt hiN)
    · rw [if_neg hcase]
      push_neg at hcase
      refine dictFind_eq_none ?_
      intro p hp
      rcases List.mem_append.mp hp with hp | hp
      · rcases hmem_body p hp with ⟨i, h50, hiN, rfl⟩
        intro heq
        have := hinj i j (le_of_lt hiN) hjN heq
        omega
      · have hpN : p = (key N, val N) := by simpa using hp
        subst hpN
        intro heq
        have hNj : key N = key j := heq
        exact hcase.2 (hinj N j (le_refl N) hjN hNj).symm
  refine ⟨?_, ?_, hfind⟩
  · have := hfind 0 (Nat.zero_le N)
    rw [this, if_neg]
    omega
  · have := hfind N (le_refl N)
    rw [this, if_pos (Or.inr rfl)]

/-- Witness for C2: the amended eviction theorem applied at the concrete
instance N = 2 with keys of distinct lengths. -/
theorem C2_fifo_batch_eviction_witness :
    dictFind (fifoScenario 2 (fun i => ⟨List.replicate i 'a'⟩) (fun i : Nat => i)) ⟨[]⟩ = none := by
  have h := C2_fifo_batch_eviction 2 (fun i => ⟨List.replicate i 'a'⟩) (fun i : Nat => i)
    (fun i j _ _ h => by
      have := congrArg (fun s : String => s.data.length) h
      simpa using this)
    (by decide)
  simpa using h.1

/-! ## Enterprise configuration (config/enterprise_config.py, routes/enterprise.py) -/

/-- The mutable fields of `EnterpriseConfig` touched by validation and by the
update route. Integral Python values are `Int`, float values are `ℚ`. -/
structure EnterpriseConfigState where
  chunk_size : Int
  chunk_overlap : Int
  similarity_threshold : ℚ
  min_context_relevance : ℚ
  max_context_tokens : Int
  temperature : ℚ
  max_output_tokens : Int
  enable_cache : Bool
  cache_size : Nat
deriving DecidableEq

/-- Defaults of the dataclasses in enterprise_config.py (no environment
overrides). -/
def defaultEnterpriseConfig : EnterpriseConfigState :=
  { chunk_size := 1200
    chunk_overlap := 200
    similarity_threshold := 1/2
    min_context_relevance := 2/5
    max_context_tokens := 6000
    temperature := 0
    max_output_tokens := 4000
    enable_cache := true
    cache_size := 500 }

/-- `ConfigUpdateRequest` of routes/enterprise.py: every field optional. -/
structure ConfigUpdateRequest where
  chunk_size : Option Int := none
  chunk_overlap : Option Int := none
  similarity_threshold : Option ℚ := none
  max_context_tokens : Option Int := none
  temperature : Option ℚ := none
  max_output_tokens : Option Int := none
  enable_cache : Option Bool := none

/-- The field assignments of `update_enterprise_config`: every provided value
is written into the configuration object. -/
def applyConfigUpdate (cfg : EnterpriseConfigState) (req : ConfigUpdateRequest) :
    EnterpriseConfigState :=
  { cfg with
    chunk_size := req.chunk_size.getD cfg.chunk_size
    chunk_overlap := req.chunk_overlap.getD cfg.chunk_overlap
    similarity_threshold := req.similarity_threshold.getD cfg.similarity_threshold
    max_context_tokens := req.max_context_tokens.getD cfg.max_context_tokens
    temperature := req.temperature.getD cfg.temperature
    max_output_tokens := req.max_output_tokens.getD cfg.max_output_tokens
    enable_cache := req.enable_cache.getD cfg.enable_cache }

/-- `EnterpriseConfig.validate_config`: the conjunction of the documented
range assertions. -/
def validateConfig (cfg : EnterpriseConfigState) : Bool :=
  decide (100 ≤ cfg.chunk_size ∧ cfg.chunk_size ≤ 5000)
  && decide (0 ≤ cfg.chunk_overlap ∧ cfg.chunk_overlap < cfg.chunk_size)
  && decide (0 ≤ cfg.similarity_threshold ∧ cfg.similarity_threshold ≤ 1)
  && decide (1000 ≤ cfg.max_context_tokens ∧ cfg.max_context_tokens ≤ 20000)
  && decide (0 ≤ cfg.temperature ∧ cfg.temperature ≤ 2)
  && decide (100 ≤ cfg.max_output_tokens ∧ cfg.max_output_tokens ≤ 8000)

/-- `update_enterprise_config` of routes/enterprise.py: mutate the global
configuration field by field, THEN validate; on validation failure raise the
HTTP 400 error. The returned pair is (route outcome, configuration state after
the call). -/
def updateEnterpriseConfig (cfg : EnterpriseConfigState) (req : ConfigUpdateRequest) :
    Except String Unit × EnterpriseConfigState :=
  let cfg' := applyConfigUpdate cfg req
  if validateConfig cfg' then (Except.ok (), cfg')
  else (Except.error "Invalid configuration values provided", cfg')

/-- C3 counterexample: updating the default configuration with the
out-of-range chunk_size 50 is rejected with the HTTP 400 error, yet the stored
chunk_size afterwards is 50, not the prior valid 1200 — the state is mutated
before validation runs. -/
theorem C3_claim_counterexample :
    (updateEnterpriseConfig defaultEnterpriseConfig { chunk_size := some 50 }).1
        = Except.error "Invalid configuration values provided"
    ∧ (updateEnterpriseConfig defaultEnterpriseConfig { chunk_size := some 50 }).2.chunk_size = 50
    ∧ defaultEnterpriseConfig.chunk_size = 1200 := by
  refine ⟨?_, rfl, rfl⟩
  rfl

/-- C3 amended: an update carrying a value outside the documented ranges is
reported as rejected, but only after every provided field has been written, so
the configuration afterwards holds the newly applied values — not the prior
ones. -/
theorem C3_update_mutates_before_validation
    (cfg : EnterpriseConfigState) (req : ConfigUpdateRequest)
    (h : validateConfig (applyConfigUpdate cfg req) = false) :
    (updateEnterpriseConfig cfg req).1
        = Except.error "Invalid configuration values provided"
    ∧ (updateEnterpriseConfig cfg req).2 = applyConfigUpdate cfg req := by
  unfold updateEnterpriseConfig
  simp only [h]
  exact ⟨rfl, rfl⟩

/-- Witness for C3: the amended theorem applied at the default configuration
with the invalid chunk_size 50. -/
theorem C3_update_mutates_before_validation_witness :
    (updateEnterpriseConfig defaultEnterpriseConfig { chunk_size := some 50 }).2
      = applyConfigUpdate defaultEnterpriseConfig { chunk_size := some 50 } :=
  (C3_update_mutates_before_validation defaultEnterpriseConfig
    { chunk_size := some 50 } (by decide)).2

/-! ## Vector matches and context optimization (_optimize_context_selection) -/

/-- A Pinecone query match as the pipeline consumes it: the raw similarity
score plus the chunk metadata fields read by the optimizer and the source
formatter. The per-chunk entity metadata the boost reads is carried in the
last two fields. -/
structure VMatch where
  score : ℚ
  text : String
  file_name : String
  chunk_type : String
  document_type : String
  doc_id : String
  file_path : String
  section_title : String
  page_number : Nat
  word_count : Nat
  upload_date : String
  entities : List String
  enterprise_entities : List (String × List String)
deriving DecidableEq

/-- A match paired with its derived enhanced score; the source mutates
`match.enhanced_score` in place, the embedding keeps an immutable record. -/
structure EMatch where
  m : VMatch
  enhanced_score : ℚ
deriving DecidableEq

/-- `_calculate_entity_relevance_boost`. `queryEntityNames` and
`queryEnterpriseTerms` are the lowercased query-side lists obtained from the
external NLP collaborator; `patterns` models the lookup
`entity_extraction_service.enterprise_patterns.get(key, [])`. -/
def calculateEntityRelevanceBoost (m : VMatch)
    (queryEntityNames queryEnterpriseTerms : List String)
    (patterns : String → List String) : ℚ :=
  let chunkEntityNames := m.entities.map pyLower
  let entityMatches :=
    (queryEntityNames.dedup.filter (fun n => chunkEntityNames.contains n)).length
  let chunkEnterpriseTerms := (m.enterprise_entities.map (fun p => p.2.map pyLower)).flatten
  let enterpriseMatches :=
    (queryEnterpriseTerms.dedup.filter (fun t => chunkEnterpriseTerms.contains t)).length
  let docTypeBoost : ℚ :=
    if (patterns (m.document_type ++ "_terms")).any
        (fun t => queryEnterpriseTerms.contains t) then 1/10 else 0
  min ((entityMatches : ℚ) * (1/10) + (enterpriseMatches : ℚ) * (1/20) + docTypeBoost) (3/10)

/-- Python test `'Record' in text and '=' in text and '|' in text`: the
structured data-record pattern. -/
def isRecordText (text : String) : Bool :=
  pyContains text "Record" && pyContains text "=" && pyContains text "|"

/-- `_calculate_data_chunk_boost`. -/
def calculateDataChunkBoost (m : VMatch) (query : String) : ℚ :=
  if !(isAnalyticalQuery query) then 0
  else
    let b1 : ℚ := if isRecordText m.text then 2/5 else 0
    let b2 : ℚ :=
      if m.chunk_type == "structured_row" || m.chunk_type == "structured_data" then 3/10 else 0
    let b3 : ℚ :=
      if m.chunk_type == "structured_header" && pyContains m.text "Columns:"
          && !(pyContains m.text "Record") then -(1/5) else 0
    let b4 : ℚ :=
      if pyContains (pyLower query) "carrier" && pyContains m.text "Carrier=" then 1/5 else 0
    let b5 : ℚ :=
      if (["delivery", "on-time", "performance"].any (fun t => pyContains (pyLower query) t))
          && pyContains m.text "On_Time=" then 1/5 else 0
    min (b1 + b2 + b3 + b4 + b5) (1/2)

/-- One step of the enhancement loop: enhanced score = raw score + entity
boost + data-chunk boost. -/
def enhanceMatch (qents qterms : List String) (patterns : String → List String)
    (query : String) (m : VMatch) : EMatch :=
  ⟨m, m.score + calculateEntityRelevanceBoost m qents qterms patterns
      + calculateDataChunkBoost m query⟩

/-- Ordered insertion used by `pySort`: keep walking while the existing
element may stay in front of the inserted one. -/
def insertOrd {α : Type} (le : α → α → Bool) (e : α) : List α → List α
  | [] => [e]
  | x :: xs => if le x e then x :: insertOrd le e xs else e :: x :: xs

/-- Model of Python list.sort / sorted with a comparator: a structurally
recursive sort (so concrete runs evaluate inside the kernel). Every claim
depends only on the output being a sorted permutation of the input. -/
def pySort {α : Type} (le : α → α → Bool) : List α → List α
  | [] => []
  | x :: xs => insertOrd le x (pySort le xs)

theorem insertOrd_perm {α : Type} (le : α → α → Bool) (e : α) :
    ∀ l : List α, (insertOrd le e l).Perm (e :: l)
  | [] => List.Perm.refl _
  | x :: xs => by
    unfold insertOrd
    by_cases h : le x e
    · simp only [if_pos h]
      exact ((insertOrd_perm le e xs).cons x).trans (List.Perm.swap e x xs)
    · simp only [if_neg h]
      exact List.Perm.refl _

theorem pySort_perm {α : Type} (le : α → α → Bool) :
    ∀ l : List α, (pySort le l).Perm l
  | [] => List.Perm.refl _
  | x :: xs => by
    unfold pySort
    exact (insertOrd_perm le x (pySort le xs)).trans ((pySort_perm le xs).cons x)

theorem mem_pySort {α : Type} {le : α → α → Bool} {a : α} {l : List α} :
    a ∈ pySort le l ↔ a ∈ l :=
  (pySort_perm le l).mem_iff

theorem pairwise_insertOrd {α : Type} {le : α → α → Bool}
    (trans : ∀ a b c, le a b = true → le b c = true → le a c = true)
    (total : ∀ a b, (le a b || le b a) = true) (e : α) :
    ∀ l : List α, l.Pairwise (fun a b => le a b = true) →
      (insertOrd le e l).Pairwise (fun a b => le a b = true)
  | [], _ => by simp [insertOrd]
  | x :: xs, hpw => by
    unfold insertOrd
    rcases List.pairwise_cons.mp hpw with ⟨hx, hxs⟩
    by_cases h : le x e
    · simp only [if_pos h]
      refine List.pairwise_cons.mpr ⟨?_, pairwise_insertOrd trans total e xs hxs⟩
      intro z hz
      rcases List.mem_cons.mp ((insertOrd_perm le e xs).mem_iff.mp hz) with hz | hz
      · cases hz
        exact h
      · exact hx z hz
    · simp only [if_neg h]
      have hex : le e x = true := by
        rcases Bool.or_eq_true_iff.mp (total x e) with h1 | h1
        · exact absurd h1 h
        · exact h1
      refine List.pairwise_cons.mpr ⟨?_, hpw⟩
      intro z hz
      rcases List.mem_cons.mp hz with hz | hz
      · cases hz
        exact hex
      · exact trans e x z hex (hx z hz)

theorem pairwise_pySort {α : Type} {le : α → α → Bool}
    (trans : ∀ a b c, le a b = true → le b c = true → le a c = true)
    (total : ∀ a b, (le a b || le b a) = true) :
    ∀ l : List α, (pySort le l).Pairwise (fun a b => le a b = true)
  | [] => by simp [pySort]
  | x :: xs => by
    unfold pySort
    exact pairwise_insertOrd trans total x (pySort le xs) (pairwise_pySort trans total xs)

/-- Comparator of every descending sort on enhanced score. -/
def byEnhancedDesc (a b : EMatch) : Bool := decide (b.enhanced_score ≤ a.enhanced_score)

/-- Relevance filter, enhancement, and the global descending sort
(lines 607-630 of the pipeline). -/
def enhancedSortedMatches (minRel : ℚ) (qents qterms : List String)
    (patterns : String → List String) (query : String) (vmatches : List VMatch) :
    List EMatch :=
  pySort byEnhancedDesc ((vmatches.filter (fun m => decide (minRel ≤ m.score))).map
      (enhanceMatch qents qterms patterns query))

/-- Keys in first-occurrence order, as a Python dict built by appending
produces them. -/
def firstOccurrences (l : List String) : List String :=
  l.foldl (fun acc d => if acc.contains d then acc else acc ++ [d]) []

/-- `doc_groups`: the enhanced matches partitioned by source document,
keys in first-occurrence order, each group keeping the sorted order. -/
def docGroups (es : List EMatch) : List (String × List EMatch) :=
  (firstOccurrences (es.map (fun e => e.m.file_name))).map
    (fun d => (d, es.filter (fun e => e.m.file_name == d)))

/-- Python `max(m.score for m in group)` on a nonempty group. -/
def bestScore : List EMatch → ℚ
  | [] => 0
  | e :: rest => rest.foldl (fun a x => max a x.m.score) e.m.score

/-- Comparator ordering document groups by best raw score, descending. -/
def byBestScoreDesc (a b : String × List EMatch) : Bool :=
  decide (bestScore b.2 ≤ bestScore a.2)

/-- `sorted_docs` (line 643). -/
def sortedDocGroups (es : List EMatch) : List (String × List EMatch) :=
  pySort byBestScoreDesc (docGroups es)

/-- Within-document chunk order (lines 645-667): for analytical queries the
data-record chunks come first and each of the two groups is sorted by enhanced
score descending; otherwise a single descending sort by enhanced score. -/
def perDocOrder (query : String) (doc_matches : List EMatch) : List EMatch :=
  if isAnalyticalQuery query then
    pySort byEnhancedDesc (doc_matches.filter (fun e => isRecordText e.m.text))
      ++ pySort byEnhancedDesc (doc_matches.filter (fun e => !(isRecordText e.m.text)))
  else pySort byEnhancedDesc doc_matches

/-- Estimated token cost of a chunk: word count of its text times 1.3. -/
def chunkTokens (e : EMatch) : ℚ := (wordCount e.m.text : ℚ) * (13/10)

/-- The inner greedy loop over one document's ordered chunks (lines 669-679):
stop on token-budget overflow or once `top_k` chunks are selected. -/
def selectFromDoc (maxTokens : ℚ) (topK : Nat) :
    List EMatch → List EMatch × ℚ → List EMatch × ℚ
  | [], st => st
  | e :: rest, (sel, tot) =>
    if maxTokens < tot + chunkTokens e then (sel, tot)
    else
      if topK ≤ (sel ++ [e]).length then (sel ++ [e], tot + chunkTokens e)
      else selectFromDoc maxTokens topK rest (sel ++ [e], tot + chunkTokens e)

/-- The outer loop over the sorted documents (lines 645-682). -/
def selectLoop (query : String) (maxTokens : ℚ) (topK : Nat) :
    List (String × List EMatch) → List EMatch × ℚ → List EMatch × ℚ
  | [], st => st
  | g :: gs, st =>
    let st' := selectFromDoc maxTokens topK (perDocOrder query g.2) st
    if topK ≤ st'.1.length then st' else selectLoop query maxTokens topK gs st'

/-- The result record of `_optimize_context_selection`. -/
structure OptimizedContext where
  chunks : List EMatch
  sources : List EMatch
  confidence : ℚ
  quality_score : ℚ
  avg_relevance : ℚ
  document_types : List String
deriving DecidableEq

/-- Python `len(set(xs))` of a string list. -/
def distinctCount (xs : List String) : Nat := xs.dedup.length

/-- `max(doc_types.count(t) for t in set(doc_types))` on a nonempty list. -/
def maxTypeCount (xs : List String) : Nat :=
  (xs.dedup.map (fun t => xs.count t)).foldl max 0

/-- `_calculate_context_quality` (the query argument of the source is unused
by its body). -/
def calculateContextQuality (chunks : List EMatch) : ℚ :=
  if chunks.isEmpty then 0
  else
    let n : ℚ := chunks.length
    let relevance := (chunks.map (fun c => c.m.score)).sum / n
    let diversity := (distinctCount (chunks.map (fun c => c.m.file_name)) : ℚ) / n
    let completeness := min ((chunks.length : ℚ) / 5) 1
    let typeConsistency := (maxTypeCount (chunks.map (fun c => c.m.document_type)) : ℚ) / n
    min (relevance * (2/5) + diversity * (1/5) + completeness * (1/5)
        + typeConsistency * (1/5)) 1

/-- `_optimize_context_selection`. Python `list(set(...))` for the document
types is modelled as `dedup` (the set iteration order is not observable by any
claim). -/
def optimizeContextSelection (minRel maxTokens : ℚ) (qents qterms : List String)
    (patterns : String → List String) (vmatches : List VMatch) (query : String)
    (topK : Nat) : OptimizedContext :=
  let es := enhancedSortedMatches minRel qents qterms patterns query vmatches
  let selected := (selectLoop query maxTokens topK (sortedDocGroups es) ([], 0)).1
  if selected.isEmpty then
    { chunks := [], sources := [], confidence := 0, quality_score := 0,
      avg_relevance := 0, document_types := [] }
  else
    let avg := (selected.map (fun c => c.m.score)).sum / (selected.length : ℚ)
    { chunks := selected
      sources := selected
      confidence := min (max avg 0) 1
      quality_score := calculateContextQuality selected
      avg_relevance := avg
      document_types := (selected.map (fun c => c.m.document_type)).dedup }

/-- Total estimated token cost of a chunk list. -/
def tokenSum (chunks : List EMatch) : ℚ := (chunks.map chunkTokens).sum

theorem selectFromDoc_sum_le (maxTokens : ℚ) (topK : Nat) :
    ∀ (l : List EMatch) (st : List EMatch × ℚ),
      tokenSum st.1 = st.2 → st.2 ≤ maxTokens →
      tokenSum (selectFromDoc maxTokens topK l st).1 = (selectFromDoc maxTokens topK l st).2
      ∧ (selectFromDoc maxTokens topK l st).2 ≤ maxTokens
  | [], st, hsum, hle => by
    unfold selectFromDoc
    exact ⟨hsum, hle⟩
  | e :: rest, ⟨sel, tot⟩, hsum, hle => by
    unfold selectFromDoc
    by_cases hov : maxTokens < tot + chunkTokens e
    · simp only [if_pos hov]
      exact ⟨hsum, hle⟩
    · simp only [if_neg hov]
      have hle' : tot + chunkTokens e ≤ maxTokens := not_lt.mp hov
      have hsum' : tokenSum (sel ++ [e]) = tot + chunkTokens e := by
        simp only [tokenSum, List.map_append, List.sum_append, List.map_cons,
          List.map_nil, List.sum_cons, List.sum_nil, add_zero]
        rw [show (sel.map chunkTokens).sum = tot from hsum]
      by_cases hk : topK ≤ (sel ++ [e]).length
      · simp only [if_pos hk]
        exact ⟨hsum', hle'⟩
      · simp only [if_neg hk]
        exact selectFromDoc_sum_le maxTokens topK rest (sel ++ [e], tot + chunkTokens e)
          hsum' hle'

theorem selectLoop_sum_le (query : String) (maxTokens : ℚ) (topK : Nat) :
    ∀ (gs : List (String × List EMatch)) (st : List EMatch × ℚ),
      tokenSum st.1 = st.2 → st.2 ≤ maxTokens →
      tokenSum (selectLoop query maxTokens topK gs st).1
          = (selectLoop query maxTokens topK gs st).2
      ∧ (selectLoop query maxTokens topK gs st).2 ≤ maxTokens
  | [], st, hsum, hle => by
    unfold selectLoop
    exact ⟨hsum, hle⟩
  | g :: gs, st, hsum, hle => by
    unfold selectLoop
    have hdoc := selectFromDoc_sum_le maxTokens topK (perDocOrder query g.2) st hsum hle
    by_cases hk : topK ≤ (selectFromDoc maxTokens topK (perDocOrder query g.2) st).1.length
    · simp only [if_pos hk]
      exact hdoc
    · simp only [if_neg hk]
      exact selectLoop_sum_le query maxTokens topK gs _ hdoc.1 hdoc.2

theorem selectFromDoc_len_lt (maxTokens : ℚ) (topK : Nat) :
    ∀ (l : List EMatch) (st : List EMatch × ℚ), st.1.length < topK →
      (selectFromDoc maxTokens topK l st).1.length ≤ topK
  | [], st, h => by
    unfold selectFromDoc
    exact Nat.le_of_lt h
  | e :: rest, ⟨sel, tot⟩, h => by
    unfold selectFromDoc
    by_cases hov : maxTokens < tot + chunkTokens e
    · simp only [if_pos hov]
      exact Nat.le_of_lt h
    · simp only [if_neg hov]
      by_cases hk : topK ≤ (sel ++ [e]).length
      · simp only [if_pos hk]
        simp only [List.length_append, List.length_cons, List.length_nil] at h ⊢
        omega
      · simp only [if_neg hk]
        refine selectFromDoc_len_lt maxTokens topK rest (sel ++ [e], tot + chunkTokens e) ?_
        simpa using Nat.lt_of_not_le hk

theorem selectFromDoc_len_any (maxTokens : ℚ) (topK : Nat) :
    ∀ (l : List EMatch) (st : List EMatch × ℚ),
      (selectFromDoc maxTokens topK l st).1.length ≤ max topK (st.1.length + 1)
  | [], st => by
    unfold selectFromDoc
    exact le_trans (Nat.le_succ _) (le_max_right _ _)
  | e :: rest, ⟨sel, tot⟩ => by
    unfold selectFromDoc
    by_cases hov : maxTokens < tot + chunkTokens e
    · simp only [if_pos hov]
      exact le_trans (Nat.le_succ _) (le_max_right _ _)
    · simp only [if_neg hov]
      by_cases hk : topK ≤ (sel ++ [e]).length
      · simp only [if_pos hk]
        simp only [List.length_append, List.length_cons, List.length_nil]
        omega
      · simp only [if_neg hk]
        have hlt : (sel ++ [e]).length < topK := Nat.lt_of_not_le hk
        exact le_trans
          (selectFromDoc_len_lt maxTokens topK rest (sel ++ [e], tot + chunkTokens e) hlt)
          (le_max_left _ _)

theorem selectLoop_len (query : String) (maxTokens : ℚ) (topK : Nat) :
    ∀ (gs : List (String × List EMatch)) (st : List EMatch × ℚ),
      (st.1.length < topK ∨ (topK = 0 ∧ st.1.length = 0)) →
      (selectLoop query maxTokens topK gs st).1.length ≤ max topK 1
  | [], st, h => by
    unfold selectLoop
    rcases h with h | ⟨h0, h1⟩
    · exact le_trans (Nat.le_of_lt h) (le_max_left _ _)
    · rw [h1]
      exact Nat.zero_le _
  | g :: gs, st, h => by
    unfold selectLoop
    by_cases hk : topK ≤ (selectFromDoc maxTokens topK (perDocOrder query g.2) st).1.length
    · simp only [if_pos hk]
      rcases h with h | ⟨h0, h1⟩
      · exact le_trans (selectFromDoc_len_lt maxTokens topK (perDocOrder query g.2) st h)
          (le_max_left _ _)
      · have hany := selectFromDoc_len_any maxTokens topK (perDocOrder query g.2) st
        rw [h1] at hany
        rw [h0] at hany ⊢
        simpa using hany
    · simp only [if_neg hk]
      exact selectLoop_len query maxTokens topK gs _ (Or.inl (Nat.lt_of_not_le hk))

/-- C1 counterexample: with `top_k = 0` the optimizer still selects one chunk,
because the count guard `len(selected) >= top_k` only runs AFTER a chunk is
accepted; so the selected-chunk count exceeds `top_k` and the acceptance
condition of the claim (fewer than `top_k` accepted so far) is violated. -/
theorem C1_claim_counterexample :
    (optimizeContextSelection (2/5) 6000 [] [] (fun _ => [])
        [⟨1, "hello world", "a.csv", "standard", "general", "d1", "p", "", 0, 2, "", [], []⟩]
        "q" 0).chunks.length = 1
    ∧ ¬ ((optimizeContextSelection (2/5) 6000 [] [] (fun _ => [])
        [⟨1, "hello world", "a.csv", "standard", "general", "d1", "p", "", 0, 2, "", [], []⟩]
        "q" 0).chunks.length ≤ 0) := by
  have h : (optimizeContextSelection (2/5) 6000 [] [] (fun _ => [])
      [⟨1, "hello world", "a.csv", "standard", "general", "d1", "p", "", 0, 2, "", [], []⟩]
      "q" 0).chunks.length = 1 := by decide
  exact ⟨h, by simp [h]⟩

/-- C1 amended: for every nonnegative token budget the combined estimated
token cost (word count times 1.3) of the selected chunks never exceeds
`max_context_tokens`; the number of selected chunks never exceeds `top_k`
whenever `top_k ≥ 1` (and never exceeds `max top_k 1` in general — with
`top_k = 0` one chunk can still be accepted because the count guard runs only
after acceptance). -/
theorem C1_token_budget_and_count (minRel maxTokens : ℚ)
    (qents qterms : List String) (patterns : String → List String)
    (vmatches : List VMatch) (query : String) (topK : Nat)
    (hmax : 0 ≤ maxTokens) :
    tokenSum (optimizeContextSelection minRel maxTokens qents qterms patterns
        vmatches query topK).chunks ≤ maxTokens
    ∧ (optimizeContextSelection minRel maxTokens qents qterms patterns
        vmatches query topK).chunks.length ≤ max topK 1
    ∧ (1 ≤ topK → (optimizeContextSelection minRel maxTokens qents qterms patterns
        vmatches query topK).chunks.length ≤ topK) := by
  unfold optimizeContextSelection
  have hstart : (([] : List EMatch).length < topK ∨ (topK = 0 ∧ ([] : List EMatch).length = 0)) := by
    rcases Nat.eq_zero_or_pos topK with h0 | hpos
    · exact Or.inr ⟨h0, rfl⟩
    · exact Or.inl (by simpa using hpos)
  have hsum := selectLoop_sum_le query maxTokens topK
    (sortedDocGroups (enhancedSortedMatches minRel qents qterms patterns query vmatches))
    ([], 0) (by simp [tokenSum]) hmax
  have hlen := selectLoop_len query maxTokens topK
    (sortedDocGroups (enhancedSortedMatches minRel qents qterms patterns query vmatches))
    ([], 0) hstart
  by_cases hsel : ((selectLoop query maxTokens topK
      (sortedDocGroups (enhancedSortedMatches minRel qents qterms patterns query vmatches))
      ([], 0)).1).isEmpty
  · simp only [hsel, if_pos]
    refine ⟨by simpa [tokenSum] using hmax, by simp, fun _ => by simp⟩
  · simp only [hsel, if_neg, Bool.false_eq_true, not_false_iff]
    refine ⟨le_of_eq_of_le hsum.1 hsum.2, hlen, fun h1 => ?_⟩
    have : max topK 1 = topK := max_eq_left h1
    rw [this] at hlen
    exact hlen

/-- Witness for C1: the amended budget/count theorem applied at a concrete
one-match input with budget 6000 and top_k 8. -/
theorem C1_token_budget_and_count_witness :
    tokenSum (optimizeContextSelection (2/5) 6000 [] [] (fun _ => [])
        [⟨1, "hello world", "a.csv", "standard", "general", "d1", "p", "", 0, 2, "", [], []⟩]
        "q" 8).chunks ≤ 6000 :=
  (C1_token_budget_and_count (2/5) 6000 [] [] (fun _ => [])
    [⟨1, "hello world", "a.csv", "standard", "general", "d1", "p", "", 0, 2, "", [], []⟩]
    "q" 8 (by decide)).1

/-! ## Ordering of the optimized context (claim C8) -/

theorem byEnhancedDesc_trans (a b c : EMatch) :
    byEnhancedDesc a b = true → byEnhancedDesc b c = true → byEnhancedDesc a c = true := by
  intro h1 h2
  exact decide_eq_true (le_trans (of_decide_eq_true h2) (of_decide_eq_true h1))

theorem byEnhancedDesc_total (a b : EMatch) :
    (byEnhancedDesc a b || byEnhancedDesc b a) = true := by
  rcases le_total a.enhanced_score b.enhanced_score with h | h
  · exact Bool.or_eq_true_iff.mpr (Or.inr (decide_eq_true h))
  · exact Bool.or_eq_true_iff.mpr (Or.inl (decide_eq_true h))

theorem byBestScoreDesc_trans (a b c : String × List EMatch) :
    byBestScoreDesc a b = true → byBestScoreDesc b c = true → byBestScoreDesc a c = true := by
  intro h1 h2
  exact decide_eq_true (le_trans (of_decide_eq_true h2) (of_decide_eq_true h1))

theorem byBestScoreDesc_total (a b : String × List EMatch) :
    (byBestScoreDesc a b || byBestScoreDesc b a) = true := by
  rcases le_total (bestScore a.2) (bestScore b.2) with h | h
  · exact Bool.or_eq_true_iff.mpr (Or.inr (decide_eq_true h))
  · exact Bool.or_eq_true_iff.mpr (Or.inl (decide_eq_true h))

theorem mem_perDocOrder {query : String} {l : List EMatch} {x : EMatch} :
    x ∈ perDocOrder query l ↔ x ∈ l := by
  unfold perDocOrder
  by_cases hq : isAnalyticalQuery query
  · simp only [if_pos hq, List.mem_append, mem_pySort, List.mem_filter]
    constructor
    · rintro (⟨h, _⟩ | ⟨h, _⟩) <;> exact h
    · intro h
      by_cases hr : isRecordText x.m.text
      · exact Or.inl ⟨h, hr⟩
      · exact Or.inr ⟨h, by simpa using hr⟩
  · simp only [if_neg hq, mem_pySort]

/-- Every step of `selectFromDoc` appends an initial segment of the remaining
chunk list to the already selected chunks. -/
theorem selectFromDoc_append (maxTokens : ℚ) (topK : Nat) :
    ∀ (l : List EMatch) (st : List EMatch × ℚ),
      ∃ pre suf, l = pre ++ suf ∧ (selectFromDoc maxTokens topK l st).1 = st.1 ++ pre
  | [], st => ⟨[], [], rfl, by
      unfold selectFromDoc
      simp⟩
  | e :: rest, ⟨sel, tot⟩ => by
    unfold selectFromDoc
    by_cases hov : maxTokens < tot + chunkTokens e
    · exact ⟨[], e :: rest, rfl, by simp only [if_pos hov]; simp⟩
    · simp only [if_neg hov]
      by_cases hk : topK ≤ (sel ++ [e]).length
      · exact ⟨[e], rest, rfl, by simp only [if_pos hk]⟩
      · simp only [if_neg hk]
        rcases selectFromDoc_append maxTokens topK rest (sel ++ [e], tot + chunkTokens e)
          with ⟨pre, suf, hsplit, hres⟩
        exact ⟨e :: pre, suf, by rw [hsplit]; rfl, by rw [hres]; simp⟩

theorem forall₂_nil_adds {β : Type} {P : List EMatch → β → Prop}
    (h : ∀ b, P [] b) : ∀ bs : List β, List.Forall₂ P (bs.map fun _ => []) bs
  | [] => List.Forall₂.nil
  | b :: bs => List.Forall₂.cons (h b) (forall₂_nil_adds h bs)

theorem flatten_nil_adds {β : Type} :
    ∀ bs : List β, ((bs.map fun _ => ([] : List EMatch)).flatten) = []
  | [] => rfl
  | _ :: bs => by simp [flatten_nil_adds bs]

/-- The chunks selected by `selectLoop` are the concatenation, document by
document in order, of an initial segment of each document's ordered chunks. -/
theorem selectLoop_append (query : String) (maxTokens : ℚ) (topK : Nat) :
    ∀ (gs : List (String × List EMatch)) (st : List EMatch × ℚ),
      ∃ adds : List (List EMatch),
        List.Forall₂ (fun ad g => ∃ suf, perDocOrder query g.2 = ad ++ suf) adds gs
        ∧ (selectLoop query maxTokens topK gs st).1 = st.1 ++ adds.flatten
  | [], st => ⟨[], List.Forall₂.nil, by
      unfold selectLoop
      simp⟩
  | g :: gs, st => by
    unfold selectLoop
    rcases selectFromDoc_append maxTokens topK (perDocOrder query g.2) st
      with ⟨pre, suf, hsplit, hres⟩
    by_cases hk : topK ≤ (selectFromDoc maxTokens topK (perDocOrder query g.2) st).1.length
    · refine ⟨pre :: (gs.map fun _ => []), ?_, ?_⟩
      · exact List.Forall₂.cons ⟨suf, hsplit⟩
          (forall₂_nil_adds (fun b => ⟨perDocOrder query b.2, rfl⟩) gs)
      · simp only [if_pos hk, List.flatten_cons, flatten_nil_adds, List.append_nil]
        exact hres
    · simp only [if_neg hk]
      rcases selectLoop_append query maxTokens topK gs
        (selectFromDoc maxTokens topK (perDocOrder query g.2) st)
        with ⟨adds, hf, hres'⟩
      refine ⟨pre :: adds, List.Forall₂.cons ⟨suf, hsplit⟩ hf, ?_⟩
      rw [hres', hres, List.flatten_cons, List.append_assoc]

theorem forall₂_exists_right {α β : Type} {R : α → β → Prop} :
    ∀ {as : List α} {bs : List β}, List.Forall₂ R as bs →
      ∀ a ∈ as, ∃ b ∈ bs, R a b := by
  intro as bs h
  induction h with
  | nil => intro a ha; cases ha
  | cons hab _ ih =>
    intro a ha
    rcases List.mem_cons.mp ha with rfl | ha
    · exact ⟨_, by simp, hab⟩
    · rcases ih a ha with ⟨b, hb, hr⟩
      exact ⟨b, by simp [hb], hr⟩

theorem pairwise_of_forall₂ {α β : Type} {R : α → β → Prop} {T : β → β → Prop}
    {Cross : α → α → Prop} :
    ∀ {as : List α} {bs : List β}, List.Forall₂ R as bs → List.Pairwise T bs →
      (∀ a b a' b', R a b → R a' b' → T b b' → Cross a a') →
      List.Pairwise Cross as := by
  intro as bs h
  induction h with
  | nil => intro _ _; exact List.Pairwise.nil
  | cons hab htail ih =>
    intro hpw hc
    rcases List.pairwise_cons.mp hpw with ⟨hT, hpw'⟩
    refine List.pairwise_cons.mpr ⟨?_, ih hpw' hc⟩
    intro a' ha'
    rcases forall₂_exists_right htail a' ha' with ⟨b', hb', hr'⟩
    exact hc _ _ _ _ hab hr' (hT b' hb')

theorem forall₂_and_right {α β : Type} {R : α → β → Prop} {Q : β → Prop} :
    ∀ {as : List α} {bs : List β}, List.Forall₂ R as bs → (∀ b ∈ bs, Q b) →
      List.Forall₂ (fun a b => R a b ∧ Q b) as bs := by
  intro as bs h
  induction h with
  | nil => intro _; exact List.Forall₂.nil
  | cons hab _ ih =>
    intro hq
    exact List.Forall₂.cons ⟨hab, hq _ (by simp)⟩ (ih (fun b hb => hq b (by simp [hb])))

theorem mem_docGroups_name {es : List EMatch} {g : String × List EMatch}
    (hg : g ∈ docGroups es) : ∀ x ∈ g.2, x.m.file_name = g.1 := by
  unfold docGroups at hg
  rcases List.mem_map.mp hg with ⟨d, _, rfl⟩
  intro x hx
  simpa using List.of_mem_filter hx

theorem mem_docGroups_eq {es : List EMatch} {g : String × List EMatch}
    (hg : g ∈ docGroups es) : g.2 = es.filter (fun e => e.m.file_name == g.1) := by
  unfold docGroups at hg
  rcases List.mem_map.mp hg with ⟨d, _, rfl⟩
  rfl

theorem nodup_firstOccurrences (l : List String) : (firstOccurrences l).Nodup := by
  suffices h : ∀ acc : List String, acc.Nodup →
      (l.foldl (fun acc d => if acc.contains d then acc else acc ++ [d]) acc).Nodup by
    exact h [] List.nodup_nil
  induction l with
  | nil => intro acc hacc; exact hacc
  | cons d l ih =>
    intro acc hacc
    simp only [List.foldl_cons]
    by_cases hd : acc.contains d
    · simp only [if_pos hd]
      exact ih acc hacc
    · simp only [if_neg hd]
      refine ih _ ?_
      rw [List.nodup_append]
      refine ⟨hacc, List.nodup_singleton d, ?_⟩
      intro a ha hb
      have : a = d := by simpa using hb
      subst this
      exact hd (by simpa using ha)

/-- The pairwise ordering claim C8 asserts for the returned context: source
documents in descending order of their single best raw score, and, for
analytical queries, record-pattern chunks never after non-record chunks of the
same document, each of the two within-document groups in descending
enhanced-score order. -/
def contextOrderRel (es : List EMatch) (query : String) (a b : EMatch) : Prop :=
  (a.m.file_name ≠ b.m.file_name →
      bestScore (es.filter (fun e => e.m.file_name == b.m.file_name))
        ≤ bestScore (es.filter (fun e => e.m.file_name == a.m.file_name)))
  ∧ (isAnalyticalQuery query = true → a.m.file_name = b.m.file_name →
      isRecordText b.m.text = true → isRecordText a.m.text = true)
  ∧ (isAnalyticalQuery query = true → a.m.file_name = b.m.file_name →
      isRecordText a.m.text = isRecordText b.m.text →
      b.enhanced_score ≤ a.enhanced_score)

theorem pairwise_perDocOrder {es : List EMatch} {query : String}
    {g : String × List EMatch} (hg : g ∈ docGroups es) :
    (perDocOrder query g.2).Pairwise (contextOrderRel es query) := by
  have hname := mem_docGroups_name hg
  unfold perDocOrder
  by_cases hq : isAnalyticalQuery query
  · simp only [if_pos hq]
    rw [List.pairwise_append]
    refine ⟨?_, ?_, ?_⟩
    · refine (pairwise_pySort byEnhancedDesc_trans byEnhancedDesc_total _).imp_of_mem ?_
      intro a b ha hb hr
      have haR : isRecordText a.m.text = true := by
        simpa using List.of_mem_filter (mem_pySort.mp ha)
      have han : a.m.file_name = g.1 := hname a (List.mem_of_mem_filter (mem_pySort.mp ha))
      have hbn : b.m.file_name = g.1 := hname b (List.mem_of_mem_filter (mem_pySort.mp hb))
      exact ⟨fun hne => absurd (han.trans hbn.symm) hne,
        fun _ _ _ => haR,
        fun _ _ _ => of_decide_eq_true hr⟩
    · refine (pairwise_pySort byEnhancedDesc_trans byEnhancedDesc_total _).imp_of_mem ?_
      intro a b ha hb hr
      have hbR : isRecordText b.m.text = false := by
        simpa using List.of_mem_filter (mem_pySort.mp hb)
      have han : a.m.file_name = g.1 := hname a (List.mem_of_mem_filter (mem_pySort.mp ha))
      have hbn : b.m.file_name = g.1 := hname b (List.mem_of_mem_filter (mem_pySort.mp hb))
      exact ⟨fun hne => absurd (han.trans hbn.symm) hne,
        fun _ _ hb' => absurd hb' (by simp [hbR]),
        fun _ _ _ => of_decide_eq_true hr⟩
    · intro a ha b hb
      have haR : isRecordText a.m.text = true := by
        simpa using List.of_mem_filter (mem_pySort.mp ha)
      have hbR : isRecordText b.m.text = false := by
        simpa using List.of_mem_filter (mem_pySort.mp hb)
      have han : a.m.file_name = g.1 := hname a (List.mem_of_mem_filter (mem_pySort.mp ha))
      have hbn : b.m.file_name = g.1 := hname b (List.mem_of_mem_filter (mem_pySort.mp hb))
      refine ⟨fun hne => absurd (han.trans hbn.symm) hne,
        fun _ _ hb' => absurd hb' (by simp [hbR]),
        fun _ _ heq => ?_⟩
      rw [haR, hbR] at heq
      cases heq
  · simp only [if_neg hq]
    refine (pairwise_pySort byEnhancedDesc_trans byEnhancedDesc_total _).imp_of_mem ?_
    intro a b ha hb hr
    have han : a.m.file_name = g.1 := hname a (mem_pySort.mp ha)
    have hbn : b.m.file_name = g.1 := hname b (mem_pySort.mp hb)
    exact ⟨fun hne => absurd (han.trans hbn.symm) hne,
      fun hq' => absurd hq' (by simpa using hq),
      fun hq' => absurd hq' (by simpa using hq)⟩

/-- C8: in the optimized context, source documents appear in descending order
of their single best raw match score; for analytical queries, within each
document no record-pattern chunk is ordered after a non-record chunk, and each
of the two within-document groups is sorted by enhanced score descending. -/
theorem C8_context_ordering (minRel maxTokens : ℚ) (qents qterms : List String)
    (patterns : String → List String) (vmatches : List VMatch) (query : String)
    (topK : Nat) :
    (optimizeContextSelection minRel maxTokens qents qterms patterns vmatches
        query topK).chunks.Pairwise
      (contextOrderRel
        (enhancedSortedMatches minRel qents qterms patterns query vmatches) query) := by
  unfold optimizeContextSelection
  set es := enhancedSortedMatches minRel qents qterms patterns query vmatches with hes
  by_cases hsel : ((selectLoop query maxTokens topK (sortedDocGroups es) ([], 0)).1).isEmpty
  · simp only [hsel, if_pos]
    exact List.Pairwise.nil
  · simp only [hsel, if_neg, Bool.false_eq_true, not_false_iff]
    rcases selectLoop_append query maxTokens topK (sortedDocGroups es) ([], 0)
      with ⟨adds, hf, hres⟩
    rw [hres]
    simp only [List.nil_append]
    rw [List.pairwise_flatten]
    constructor
    · intro ad had
      rcases forall₂_exists_right hf ad had with ⟨g, hg_gs, suf, heq⟩
      have hgdg : g ∈ docGroups es := mem_pySort.mp hg_gs
      have hpw : (perDocOrder query g.2).Pairwise (contextOrderRel es query) :=
        pairwise_perDocOrder hgdg
      rw [heq] at hpw
      exact List.Pairwise.sublist (List.sublist_append_left ad suf) hpw
    · have hnd : (docGroups es).Pairwise (fun g g' => g.1 ≠ g'.1) := by
        unfold docGroups
        rw [List.pairwise_map]
        exact (nodup_firstOccurrences _).imp (fun h => h)
      have h2 : (sortedDocGroups es).Pairwise (fun g g' => g.1 ≠ g'.1) :=
        (List.Perm.pairwise_iff (fun h => h.symm) (pySort_perm byBestScoreDesc _)).mpr hnd
      have h1 : (sortedDocGroups es).Pairwise (fun g g' => byBestScoreDesc g g' = true) :=
        pairwise_pySort byBestScoreDesc_trans byBestScoreDesc_total _
      have hT : (sortedDocGroups es).Pairwise
          (fun g g' => bestScore g'.2 ≤ bestScore g.2 ∧ g.1 ≠ g'.1) :=
        (h1.and h2).imp (fun hp => ⟨of_decide_eq_true hp.1, hp.2⟩)
      refine pairwise_of_forall₂
        (forall₂_and_right hf (fun g hg => mem_pySort.mp hg)) hT ?_
      rintro ad g ad' g' ⟨⟨suf, hpre⟩, hgdg⟩ ⟨⟨suf', hpre'⟩, hgdg'⟩ ⟨hscore, hne⟩
      intro x hx y hy
      have hxg : x ∈ g.2 := mem_perDocOrder.mp
        (by rw [hpre]; exact List.mem_append.mpr (Or.inl hx))
      have hyg : y ∈ g'.2 := mem_perDocOrder.mp
        (by rw [hpre']; exact List.mem_append.mpr (Or.inl hy))
      have hxn : x.m.file_name = g.1 := mem_docGroups_name hgdg x hxg
      have hyn : y.m.file_name = g'.1 := mem_docGroups_name hgdg' y hyg
      refine ⟨fun _ => ?_, fun _ heq _ => ?_, fun _ heq _ => ?_⟩
      · rw [hxn, hyn, ← mem_docGroups_eq hgdg, ← mem_docGroups_eq hgdg']
        exact hscore
      · exact absurd (hxn.symm.trans (heq.trans hyn)) hne
      · exact absurd (hxn.symm.trans (heq.trans hyn)) hne

/-! ## Answer generation and the missing-data retry
(_generate_enterprise_answer, _generate_general_knowledge_response,
_generate_enterprise_answer_with_fallback) -/

/-- An apostrophe, built from its character code so the fixed answer strings
below can quote the source text verbatim. -/
def apos : String := String.singleton (Char.ofNat 39)

/-- The fixed answer returned when the document-grounded generation call
throws (caught inside `_generate_enterprise_answer`). -/
def apologyAnswer : String :=
  "I apologize, but I encountered an error while generating the comprehensive response. Please try again, and I"
    ++ apos
    ++ "ll provide you with a detailed analysis based on the available documents."

/-- The fixed answer of the caught handler in
`_generate_general_knowledge_response`. -/
def generalApologyAnswer : String :=
  "I apologize, but I encountered an error while processing your question. Please try again, and I"
    ++ apos ++ "ll provide you with a comprehensive response."

/-- A formatted source entry (`_format_enterprise_sources`). -/
structure FormattedSource where
  file_name : String
  file_id : String
  file_path : String
  document_type : String
  section_title : String
  page_number : Nat
  chunk_text : String
  relevance_score : ℚ
  word_count : Nat
  upload_date : String
deriving DecidableEq

/-- The response record built by `_generate_general_knowledge_response`. -/
structure GKResponse where
  answer : String
  sources : List FormattedSource
  confidence : ℚ
  context_quality : ℚ
  response_type : String
deriving DecidableEq

/-- `_generate_general_knowledge_response`: the visualization and plain
branches differ only in the prompts sent to the model, so the single argument
is the outcome of `self.llm.invoke`. On success the trimmed model text comes
back with fixed confidence 0.8 and response_type general_knowledge; an
exception is caught and mapped to the apology payload with response_type
error and zero confidence. -/
def generateGeneralKnowledgeResponse (llm : Except String String) : GKResponse :=
  match llm with
  | Except.ok s => ⟨pyStrip s, [], 4/5, 4/5, "general_knowledge"⟩
  | Except.error _ => ⟨generalApologyAnswer, [], 0, 0, "error"⟩

/-- `_generate_enterprise_answer` (the later of the two Python definitions,
which shadows the first): an empty chunk list falls back to the
general-knowledge answer; otherwise the model is invoked and an exception is
caught and mapped to the fixed apology answer. -/
def generateEnterpriseAnswer (context : OptimizedContext)
    (llm llmGeneral : Except String String) : String :=
  if context.chunks.isEmpty then (generateGeneralKnowledgeResponse llmGeneral).answer
  else
    match llm with
    | Except.ok s => pyStrip s
    | Except.error _ => apologyAnswer

/-- The missing-data indicator phrases of
`_generate_enterprise_answer_with_fallback`. -/
def missingDataIndicators : List String :=
  ["data is missing", "information is missing", "not possible to determine",
   "cannot be performed", "data linking", "additional data", "no field",
   "no information", "cannot find", "not available in", "missing information"]

/-- Case-insensitive scan of an answer for the missing-data phrases. -/
def hasMissingDataResponse (answer : String) : Bool :=
  missingDataIndicators.any (fun ind => pyContains (pyLower answer) ind)

/-- Outcome of the fallback wrapper: the answer returned to the caller plus
the number of retry attempts performed, making the temporal claim about the
single retry checkable. -/
structure FallbackOutcome where
  answer : String
  retries : Nat
deriving DecidableEq

/-- `_generate_enterprise_answer_with_fallback`. `retrySearch` is the combined
outcome of re-embedding the query and re-running vector search at breadth 50
(an exception from either collaborator is caught, keeping the original
answer); `llmRetry` is the model outcome of the regeneration. -/
def generateEnterpriseAnswerWithFallback
    (minRel maxTokens : ℚ) (qents qterms : List String)
    (patterns : String → List String)
    (query : String) (context : OptimizedContext) (currentTopK : Nat)
    (llmFirst llmGeneral : Except String String)
    (retrySearch : Except String (List VMatch))
    (llmRetry : Except String String) : FallbackOutcome :=
  let answer := generateEnterpriseAnswer context llmFirst llmGeneral
  if hasMissingDataResponse answer && isAnalyticalQuery query
      && decide (currentTopK < 40) then
    match retrySearch with
    | Except.error _ => ⟨answer, 1⟩
    | Except.ok ms =>
      if ms.isEmpty then ⟨answer, 1⟩
      else
        let ctx2 := optimizeContextSelection minRel maxTokens qents qterms patterns
            ms query 50
        let fallback := generateEnterpriseAnswer ctx2 llmRetry llmGeneral
        if !(hasMissingDataResponse fallback)
            || decide (answer.length < fallback.length) then ⟨fallback, 1⟩
        else ⟨answer, 1⟩
  else ⟨answer, 0⟩

/-- A fixed one-chunk match reused by the concrete scenarios below. -/
def sampleVMatch : VMatch :=
  ⟨1, "hello world", "a.csv", "standard", "general", "d1", "p", "", 0, 2, "", [], []⟩

/-- C4 counterexample: when the model collaborator throws during
document-grounded generation, the pipeline returns the completed apology
answer instead of propagating the failure, and on the general-knowledge path
it returns a result with response_type error — both contradicting the claim
that generation failure is propagated unchanged. -/
theorem C4_claim_counterexample :
    generateEnterpriseAnswer ⟨[⟨sampleVMatch, 1⟩], [⟨sampleVMatch, 1⟩], 1, 1, 1, ["general"]⟩
        (Except.error "boom") (Except.ok "x") = apologyAnswer
    ∧ (generateGeneralKnowledgeResponse (Except.error "boom")).response_type = "error" :=
  ⟨rfl, rfl⟩

/-- C4 amended: a generation exception is caught, never propagated: on the
document-grounded path (nonempty context) the fixed apology string is returned
as the answer, and on the general-knowledge path the result carries
response_type error, confidence 0, and the general apology answer. -/
theorem C4_generation_failure_caught (context : OptimizedContext)
    (e : String) (llmGeneral : Except String String)
    (h : context.chunks ≠ []) :
    generateEnterpriseAnswer context (Except.error e) llmGeneral = apologyAnswer
    ∧ (generateGeneralKnowledgeResponse (Except.error e)).response_type = "error"
    ∧ (generateGeneralKnowledgeResponse (Except.error e)).confidence = 0
    ∧ (generateGeneralKnowledgeResponse (Except.error e)).answer = generalApologyAnswer := by
  refine ⟨?_, rfl, rfl, rfl⟩
  unfold generateEnterpriseAnswer
  rw [if_neg (by simpa using h)]

/-- Witness for C4: the caught-failure theorem at a concrete one-chunk
context. -/
theorem C4_generation_failure_caught_witness :
    generateEnterpriseAnswer ⟨[⟨sampleVMatch, 1⟩], [⟨sampleVMatch, 1⟩], 1, 1, 1, ["general"]⟩
        (Except.error "x") (Except.ok "y") = apologyAnswer :=
  (C4_generation_failure_caught
    ⟨[⟨sampleVMatch, 1⟩], [⟨sampleVMatch, 1⟩], 1, 1, 1, ["general"]⟩
    "x" (Except.ok "y") (by simp)).1

/-- C7: the missing-data retry of the fallback wrapper. Never more than one
retry is performed. When the initial answer lacks a missing-data phrase, or
the query is not analytical, or the breadth used was 40 or more, no retry
happens and the initial answer is returned. When all three conditions hold and
the retry search at breadth 50 succeeds with matches, exactly one retry
happens (re-search, re-optimize, regenerate) and the regenerated answer
replaces the original exactly when it contains no missing-data phrase or is
strictly longer than the original. -/
theorem C7_missing_data_retry (minRel maxTokens : ℚ) (qents qterms : List String)
    (patterns : String → List String) (query : String)
    (context : OptimizedContext) (currentTopK : Nat)
    (llmFirst llmGeneral : Except String String)
    (retrySearch : Except String (List VMatch)) (llmRetry : Except String String) :
    (generateEnterpriseAnswerWithFallback minRel maxTokens qents qterms patterns
        query context currentTopK llmFirst llmGeneral retrySearch llmRetry).retries ≤ 1
    ∧ (¬ (hasMissingDataResponse (generateEnterpriseAnswer context llmFirst llmGeneral) = true
          ∧ isAnalyticalQuery query = true ∧ currentTopK < 40) →
        generateEnterpriseAnswerWithFallback minRel maxTokens qents qterms patterns
            query context currentTopK llmFirst llmGeneral retrySearch llmRetry
          = ⟨generateEnterpriseAnswer context llmFirst llmGeneral, 0⟩)
    ∧ (∀ ms : List VMatch,
        hasMissingDataResponse (generateEnterpriseAnswer context llmFirst llmGeneral) = true →
        isAnalyticalQuery query = true → currentTopK < 40 →
        retrySearch = Except.ok ms → ms ≠ [] →
        (generateEnterpriseAnswerWithFallback minRel maxTokens qents qterms patterns
            query context currentTopK llmFirst llmGeneral retrySearch llmRetry).retries = 1
        ∧ ((hasMissingDataResponse (generateEnterpriseAnswer
                (optimizeContextSelection minRel maxTokens qents qterms patterns ms query 50)
                llmRetry llmGeneral) = false
            ∨ (generateEnterpriseAnswer context llmFirst llmGeneral).length
                < (generateEnterpriseAnswer
                    (optimizeContextSelection minRel maxTokens qents qterms patterns ms query 50)
                    llmRetry llmGeneral).length) →
            (generateEnterpriseAnswerWithFallback minRel maxTokens qents qterms patterns
                query context currentTopK llmFirst llmGeneral retrySearch llmRetry).answer
              = generateEnterpriseAnswer
                  (optimizeContextSelection minRel maxTokens qents qterms patterns ms query 50)
                  llmRetry llmGeneral)
        ∧ (hasMissingDataResponse (generateEnterpriseAnswer
                (optimizeContextSelection minRel maxTokens qents qterms patterns ms query 50)
                llmRetry llmGeneral) = true
            ∧ (generateEnterpriseAnswer
                (optimizeContextSelection minRel maxTokens qents qterms patterns ms query 50)
                llmRetry llmGeneral).length
              ≤ (generateEnterpriseAnswer context llmFirst llmGeneral).length →
            (generateEnterpriseAnswerWithFallback minRel maxTokens qents qterms patterns
                query context currentTopK llmFirst llmGeneral retrySearch llmRetry).answer
              = generateEnterpriseAnswer context llmFirst llmGeneral)) := by
  refine ⟨?_, ?_, ?_⟩
  · unfold generateEnterpriseAnswerWithFallback
    simp only []
    split
    · split
      · simp
      · split
        · simp
        · split
          · simp
          · simp
    · simp
  · intro h
    unfold generateEnterpriseAnswerWithFallback
    simp only []
    rw [if_neg]
    intro hc
    have hc' := by simpa [Bool.and_eq_true, decide_eq_true_eq] using hc
    exact h ⟨hc'.1.1, hc'.1.2, hc'.2⟩
  · intro ms h1 h2 h3 hre hne
    have hcond : (hasMissingDataResponse (generateEnterpriseAnswer context llmFirst llmGeneral)
        && isAnalyticalQuery query && decide (currentTopK < 40)) = true := by
      simp [h1, h2, h3]
    unfold generateEnterpriseAnswerWithFallback
    simp only [hre, if_pos hcond]
    rw [if_neg (by simpa using hne)]
    refine ⟨?_, ?_, ?_⟩
    · split <;> rfl
    · intro hacc
      rcases hacc with hf | hl
      · rw [if_pos (by simp [hf])]
      · rw [if_pos (by simp [hl])]
    · rintro ⟨hf, hl⟩
      rw [if_neg]
      simp [hf, Nat.not_lt.mpr hl]

/-- Witness for C7: the retry theorem at a concrete analytical query with
breadth 20, a first answer containing a missing-data phrase, and a shorter
regenerated answer that still mentions missing data — exactly one retry, and
the original answer is kept. -/
theorem C7_missing_data_retry_witness :
    (generateEnterpriseAnswerWithFallback (2/5) 6000 [] [] (fun _ => []) "average"
        ⟨[⟨sampleVMatch, 1⟩], [⟨sampleVMatch, 1⟩], 1, 1, 1, ["general"]⟩ 20
        (Except.ok "The data is missing for this analysis.") (Except.ok "g")
        (Except.ok [sampleVMatch]) (Except.ok "data is missing.")).retries = 1 :=
  ((C7_missing_data_retry (2/5) 6000 [] [] (fun _ => []) "average"
      ⟨[⟨sampleVMatch, 1⟩], [⟨sampleVMatch, 1⟩], 1, 1, 1, ["general"]⟩ 20
      (Except.ok "The data is missing for this analysis.") (Except.ok "g")
      (Except.ok [sampleVMatch]) (Except.ok "data is missing.")).2.2 [sampleVMatch]
    (by decide) (by decide) (by decide) rfl (by simp)).1

/-! ## The query orchestrator (query_documents) -/

/-- Abbreviation expansion table of `_preprocess_query`, in iteration order. -/
def queryAbbreviations : List (String × String) :=
  [("ai", "artificial intelligence"), ("ml", "machine learning"),
   ("api", "application programming interface"), ("roi", "return on investment"),
   ("kpi", "key performance indicator")]

/-- Python str.replace over char lists, structured on a fuel argument that is
always at least the length of the text so concrete runs evaluate. -/
def replaceAux (old new : List Char) : Nat → List Char → List Char
  | 0, s => s
  | _ + 1, [] => []
  | fuel + 1, c :: rest =>
    if beginsWith old (c :: rest) then new ++ replaceAux old new fuel ((c :: rest).drop old.length)
    else c :: replaceAux old new fuel rest

/-- Python `s.replace(old, new)` (left to right, non-overlapping); the source
only uses nonempty patterns. -/
def pyReplace (s old new : String) : String :=
  if old.data.isEmpty then s
  else ⟨replaceAux old.data new.data s.data.length s.data⟩

/-- `_preprocess_query`: lowercase, expand each abbreviation when surrounded
by spaces or followed by a period, then strip. -/
def preprocessQuery (query : String) : String :=
  pyStrip (queryAbbreviations.foldl (fun q ab =>
      pyReplace (pyReplace q (" " ++ ab.1 ++ " ") (" " ++ ab.2 ++ " "))
        (" " ++ ab.1 ++ ".") (" " ++ ab.2))
    (pyLower query))

/-- Python `\w`: alphanumeric or underscore. -/
def isWordChar (c : Char) : Bool := c.isAlphanum || c == '_'

/-- Helper: collapse each maximal run of non-word characters to one space,
the regex `re.sub` of the cache-key computation; the flag records whether the
previous character was part of such a run. -/
def collapseAux : Bool → List Char → List Char
  | _, [] => []
  | prevNon, c :: rest =>
    if isWordChar c then c :: collapseAux false rest
    else if prevNon then collapseAux true rest
    else ' ' :: collapseAux true rest

/-- `_generate_semantic_cache_key`: lowercase, collapse non-word runs to
single spaces, strip, and scope by tenant. -/
def generateSemanticCacheKey (query tenant_id : String) : String :=
  tenant_id ++ ":" ++ pyStrip ⟨collapseAux false (pyLower query).data⟩

/-- The formatted record built for one source (`_format_enterprise_sources`,
loop body). -/
def formatSource (s : EMatch) : FormattedSource :=
  ⟨s.m.file_name, s.m.doc_id, s.m.file_path, s.m.document_type, s.m.section_title,
    s.m.page_number, s.m.text, s.m.score, s.m.word_count, s.m.upload_date⟩

/-- Comparator of the final sort of formatted sources. -/
def byRelevanceDesc (a b : FormattedSource) : Bool :=
  decide (b.relevance_score ≤ a.relevance_score)

/-- `_format_enterprise_sources`: deduplicate by file name keeping first
occurrences, then sort by relevance score descending. -/
def formatEnterpriseSources (sources : List EMatch) : List FormattedSource :=
  pySort byRelevanceDesc
    (sources.foldl (fun acc s =>
      if (acc.map (fun t => t.file_name)).contains s.m.file_name then acc
      else acc ++ [formatSource s]) [])

/-- The deterministic part of the processing_metadata map of the
document-grounded result (timing fields, being wall-clock readings, are not
modelled). -/
structure ProcMetaDoc where
  total_chunks_analyzed : Nat
  chunks_used : Nat
  avg_relevance_score : ℚ
  document_types : List String
deriving DecidableEq

/-- The processing_metadata value: the document-grounded shape or the
general-knowledge shape (response_enhanced flag). -/
inductive ProcMeta where
  | doc (meta : ProcMetaDoc)
  | general (response_enhanced : Bool)
deriving DecidableEq

/-- The full result payload of `query_documents`; `RC` is the rich-content
value produced by the out-of-scope rendering collaborator. -/
structure RAGResult (RC : Type) where
  answer : String
  sources : List FormattedSource
  confidence : ℚ
  context_quality : ℚ
  response_type : String
  rich_content : RC
  processing_metadata : ProcMeta
deriving DecidableEq

/-- The external collaborators `query_documents` touches, with the query-side
entity data (external NLP) and the rich-content renderers. `search` combines
embedding the query and the vector-store call (either may throw); the model
outcomes are per-call-site. -/
structure QueryCollaborators (RC : Type) where
  search : Nat → Except String (List VMatch)
  llmDoc : Except String String
  llmGeneral : Except String String
  retrySearch : Except String (List VMatch)
  llmRetry : Except String String
  richDoc : String → List EMatch → String → RC
  richGeneral : String → RC
  qents : List String
  qterms : List String
  patterns : String → List String

/-- Python `max(match.score for match in matches)` on a nonempty list. -/
def maxScoreOf : List VMatch → ℚ
  | [] => 0
  | m :: rest => rest.foldl (fun a x => max a x.score) m.score

/-- `query_documents`: preprocess, pick the dynamic breadth, consult the
semantic cache, search, apply the quality gate (general-knowledge path, no
caching), or optimize + generate with fallback, format sources, build the
result and cache it. An exception from the search collaborator propagates;
returns the result together with the cache state after the call. -/
def query_documents {RC : Type} (cfg : EnterpriseConfigState)
    (collabs : QueryCollaborators RC) (cache : PyDict (RAGResult RC))
    (query tenant_id : String) (topK : Nat) :
    Except String (RAGResult RC × PyDict (RAGResult RC)) :=
  let processed := preprocessQuery query
  let dynTopK := getDynamicTopK query topK
  let cacheKey := generateSemanticCacheKey processed tenant_id
  match dictFind cache cacheKey with
  | some cached => Except.ok (cached, cache)
  | none =>
    match collabs.search dynTopK with
    | Except.error e => Except.error e
    | Except.ok ms =>
      if ms.isEmpty || decide (maxScoreOf ms < cfg.similarity_threshold) then
        let g := generateGeneralKnowledgeResponse collabs.llmGeneral
        let result : RAGResult RC :=
          ⟨g.answer, g.sources, g.confidence, g.context_quality, g.response_type,
            collabs.richGeneral query, ProcMeta.general true⟩
        Except.ok (result, cache)
      else
        let ctx := optimizeContextSelection cfg.min_context_relevance
            (cfg.max_context_tokens : ℚ) collabs.qents collabs.qterms collabs.patterns
            ms query topK
        let fo := generateEnterpriseAnswerWithFallback cfg.min_context_relevance
            (cfg.max_context_tokens : ℚ) collabs.qents collabs.qterms collabs.patterns
            query ctx dynTopK collabs.llmDoc collabs.llmGeneral collabs.retrySearch
            collabs.llmRetry
        let result : RAGResult RC :=
          ⟨fo.answer, formatEnterpriseSources ctx.sources, ctx.confidence,
            ctx.quality_score, "document_based",
            collabs.richDoc fo.answer ctx.chunks query,
            ProcMeta.doc ⟨ms.length, ctx.chunks.length, ctx.avg_relevance,
              ctx.document_types⟩⟩
        Except.ok (result, cacheResultOp cfg.cache_size cache cacheKey result)

theorem dictFind_none_iff {V : Type} {d : PyDict V} {k : String} :
    dictFind d k = none ↔ ∀ p ∈ d, p.1 ≠ k := by
  constructor
  · intro h p hp heq
    induction d with
    | nil => cases hp
    | cons q d ih =>
      rcases List.mem_cons.mp hp with rfl | hp'
      · simp [dictFind, List.find?_cons, heq] at h
      · refine ih ?_ hp'
        simp only [dictFind, List.find?_cons] at h ⊢
        rcases hq : (q.1 == k) with _ | _
        · simpa [hq] using h
        · simp [hq] at h
  · exact dictFind_eq_none

theorem dictFind_cacheResultOp_self {V : Type} {size : Nat} {cache : PyDict V}
    {k : String} {v : V} (h : dictFind cache k = none) :
    dictFind (cacheResultOp size cache k v) k = some v := by
  have hall : ∀ p ∈ cache, p.1 ≠ k := dictFind_none_iff.mp h
  unfold cacheResultOp
  have hall0 : ∀ p ∈ (if size ≤ cache.length then cache.drop 50 else cache), p.1 ≠ k := by
    intro p hp
    by_cases hsz : size ≤ cache.length
    · rw [if_pos hsz] at hp
      exact hall p (List.drop_subset _ _ hp)
    · rw [if_neg hsz] at hp
      exact hall p hp
  have hnk : dictHasKey (if size ≤ cache.length then cache.drop 50 else cache) k = false :=
    dictHasKey_eq_false hall0
  unfold dictInsert
  rw [if_neg (by simp [hnk])]
  exact dictFind_append_sing hall0

/-- C6: when the vector search yields no matches, or every raw score is
strictly below similarity_threshold, the pipeline takes the general-knowledge
path: the result is exactly the general-knowledge payload with response_type
general_knowledge, empty sources and confidence 0.8, no context optimization
is run, and the cache is returned unchanged. -/
theorem C6_quality_gate {RC : Type} (cfg : EnterpriseConfigState)
    (collabs : QueryCollaborators RC) (cache : PyDict (RAGResult RC))
    (query tenant_id : String) (topK : Nat) (ms : List VMatch) (s : String)
    (hcache : dictFind cache (generateSemanticCacheKey (preprocessQuery query) tenant_id) = none)
    (hsearch : collabs.search (getDynamicTopK query topK) = Except.ok ms)
    (hgate : ms = [] ∨ maxScoreOf ms < cfg.similarity_threshold)
    (hllm : collabs.llmGeneral = Except.ok s) :
    query_documents cfg collabs cache query tenant_id topK
      = Except.ok
          (⟨pyStrip s, [], 4/5, 4/5, "general_knowledge",
              collabs.richGeneral query, ProcMeta.general true⟩, cache) := by
  unfold query_documents
  simp only [hcache, hsearch]
  have hb : (ms.isEmpty || decide (maxScoreOf ms < cfg.similarity_threshold)) = true := by
    rcases hgate with rfl | h
    · simp
    · simp [h]
  rw [if_pos hb]
  simp [generateGeneralKnowledgeResponse, hllm]

/-- Witness for C6: the quality-gate theorem at the spec scenario — two
matches with raw scores 0.2 and 0.25, threshold 0.5 (the default). -/
theorem C6_quality_gate_witness :
    query_documents defaultEnterpriseConfig
      (⟨fun _ => Except.ok [{ sampleVMatch with score := 1/5 },
          { sampleVMatch with score := 1/4 }],
        Except.ok "d", Except.ok "Paris", Except.ok [], Except.ok "r",
        fun _ _ _ => (), fun _ => (), [], [], fun _ => []⟩ : QueryCollaborators Unit)
      [] "q" "t" 8
      = Except.ok
          (⟨pyStrip "Paris", [], 4/5, 4/5, "general_knowledge", (), ProcMeta.general true⟩,
            []) :=
  C6_quality_gate defaultEnterpriseConfig _ [] "q" "t" 8
    [{ sampleVMatch with score := 1/5 }, { sampleVMatch with score := 1/4 }] "Paris"
    rfl rfl (Or.inr (by decide)) rfl

/-- The collaborators of the C5 counterexample run: an empty search result
forces the general-knowledge path. -/
def C5collabs : QueryCollaborators Unit :=
  ⟨fun _ => Except.ok [], Except.ok "d", Except.ok "Paris", Except.ok [], Except.ok "r",
    fun _ _ _ => (), fun _ => (), [], [], fun _ => []⟩

/-- C5 counterexample: a query that completes successfully on the
general-knowledge path stores NOTHING in the cache — the returned cache state
is still empty and the tenant-scoped key is absent, so the identical query
re-runs the whole path instead of hitting the cache, contrary to the claim
that both success paths cache their result. -/
theorem C5_claim_counterexample :
    query_documents defaultEnterpriseConfig C5collabs [] "q" "t" 8
      = Except.ok
          (⟨"Paris", [], 4/5, 4/5, "general_knowledge", (), ProcMeta.general true⟩,
            ([] : PyDict (RAGResult Unit)))
    ∧ dictFind ([] : PyDict (RAGResult Unit))
        (generateSemanticCacheKey (preprocessQuery "q") "t") = none := by
  exact ⟨rfl, rfl⟩

/-- C5 amended: only the document-grounded path caches. When the cache misses,
the search succeeds with matches passing the quality gate, the full result is
stored under the tenant-scoped normalized-query key, and the identical
(tenant_id, query) pair issued again returns that exact cached payload with
the cache unchanged. -/
theorem C5_doc_path_cache_roundtrip {RC : Type} (cfg : EnterpriseConfigState)
    (collabs : QueryCollaborators RC) (cache : PyDict (RAGResult RC))
    (query tenant_id : String) (topK : Nat) (ms : List VMatch)
    (hcache : dictFind cache (generateSemanticCacheKey (preprocessQuery query) tenant_id) = none)
    (hsearch : collabs.search (getDynamicTopK query topK) = Except.ok ms)
    (hne : ms ≠ [])
    (hthr : ¬ (maxScoreOf ms < cfg.similarity_threshold)) :
    ∃ (r : RAGResult RC) (c' : PyDict (RAGResult RC)),
      query_documents cfg collabs cache query tenant_id topK = Except.ok (r, c')
      ∧ r.response_type = "document_based"
      ∧ dictFind c' (generateSemanticCacheKey (preprocessQuery query) tenant_id) = some r
      ∧ query_documents cfg collabs c' query tenant_id topK = Except.ok (r, c') := by
  unfold query_documents
  simp only [hcache, hsearch]
  have hb : (ms.isEmpty || decide (maxScoreOf ms < cfg.similarity_threshold)) = false := by
    simp [List.isEmpty_iff, hne, hthr]
  rw [if_neg (by simp [hb])]
  refine ⟨_, _, rfl, rfl, dictFind_cacheResultOp_self hcache, ?_⟩
  rw [dictFind_cacheResultOp_self hcache]

/-- The collaborators of the C5 witness run: one high-scoring match puts the
pipeline on the document-grounded path. -/
def C5docCollabs : QueryCollaborators Unit :=
  ⟨fun _ => Except.ok [sampleVMatch], Except.ok "ans", Except.ok "g", Except.ok [],
    Except.ok "r", fun _ _ _ => (), fun _ => (), [], [], fun _ => []⟩

/-- Witness for C5: the document-path caching theorem at a concrete
one-match run. -/
theorem C5_doc_path_cache_roundtrip_witness :
    ∃ (r : RAGResult Unit) (c' : PyDict (RAGResult Unit)),
      query_documents defaultEnterpriseConfig C5docCollabs [] "q" "t" 8 = Except.ok (r, c')
      ∧ r.response_type = "document_based"
      ∧ dictFind c' (generateSemanticCacheKey (preprocessQuery "q") "t") = some r
      ∧ query_documents defaultEnterpriseConfig C5docCollabs c' "q" "t" 8
          = Except.ok (r, c') :=
  C5_doc_path_cache_roundtrip defaultEnterpriseConfig C5docCollabs [] "q" "t" 8
    [sampleVMatch] rfl rfl (by simp) (by decide)

/-! ## Document deletion (delete_document, DocumentModel, pinecone state) -/

/-- A document metadata record as `delete_document` reads it: the stringified
Mongo id and the owning tenant. -/
structure DocRecord where
  id : String
  tenant_id : String
deriving DecidableEq

/-- A stored chunk vector in the tenant's namespace. -/
structure StoredVector where
  id : String
  doc_id : String
  values : List ℚ

/-- The persistent state `delete_document` touches: the metadata store and the
vector store, the latter keyed by namespace (= tenant id). -/
structure StoreState where
  documents : List DocRecord
  vectors : String → List StoredVector

/-- `DocumentModel.get_documents_by_tenant`. -/
def getDocumentsByTenant (st : StoreState) (tenant_id : String) : List DocRecord :=
  st.documents.filter (fun d => d.tenant_id == tenant_id)

/-- `DocumentModel.delete_document`: Mongo delete_one on (_id, tenant_id),
removing the first matching record; returns deleted_count > 0. -/
def mongoDeleteDocument (st : StoreState) (doc_id tenant_id : String) :
    Bool × StoreState :=
  if st.documents.any (fun d => d.id == doc_id && d.tenant_id == tenant_id) then
    (true, { st with documents :=
        st.documents.eraseP (fun d => d.id == doc_id && d.tenant_id == tenant_id) })
  else (false, st)

/-- `EnterpriseRAGPipeline.delete_document`: look the document up among the
tenant's records, delete the metadata record, and deliberately leave the
chunk vectors in the vector store untouched (source lines 1297-1298). -/
def delete_document (st : StoreState) (doc_id tenant_id : String) :
    Bool × StoreState :=
  match (getDocumentsByTenant st tenant_id).find? (fun d => d.id == doc_id) with
  | none => (false, st)
  | some _ =>
    let res := mongoDeleteDocument st doc_id tenant_id
    if res.1 then (true, res.2) else (false, res.2)

/-- C10: a successful delete_document removes only the metadata record — the
documents list loses exactly the first matching record, the vector store map
is unchanged on every namespace, and therefore any search over the tenant's
namespace returns exactly what it returned before the deletion. -/
theorem C10_delete_keeps_vectors (st : StoreState) (doc_id tenant_id : String)
    (h : (delete_document st doc_id tenant_id).1 = true) :
    (delete_document st doc_id tenant_id).2.vectors = st.vectors
    ∧ (∀ (search : List StoredVector → List StoredVector) (ns : String),
        search ((delete_document st doc_id tenant_id).2.vectors ns)
          = search (st.vectors ns))
    ∧ (delete_document st doc_id tenant_id).2.documents
        = st.documents.eraseP (fun d => d.id == doc_id && d.tenant_id == tenant_id) := by
  unfold delete_document at h ⊢
  rcases hfind : (getDocumentsByTenant st tenant_id).find? (fun d => d.id == doc_id)
    with _ | d
  · rw [hfind] at h
    cases h
  · rw [hfind] at h ⊢
    have hmem : d ∈ getDocumentsByTenant st tenant_id := List.mem_of_find?_eq_some hfind
    have hid' := List.find?_some hfind
    have hid : (d.id == doc_id) = true := hid'
    have htenant : (d.tenant_id == tenant_id) = true := by
      simpa using List.of_mem_filter hmem
    have hany : st.documents.any (fun d => d.id == doc_id && d.tenant_id == tenant_id)
        = true := by
      refine List.any_eq_true.mpr ⟨d, ?_, by simp [hid, htenant]⟩
      exact List.mem_of_mem_filter hmem
    unfold mongoDeleteDocument at h ⊢
    rw [if_pos hany] at h ⊢
    simp

/-- Witness for C10: the frame theorem at a one-document, one-vector state. -/
theorem C10_delete_keeps_vectors_witness :
    (delete_document
        ⟨[⟨"d1", "t1"⟩], fun _ => [⟨"v1", "d1", [1]⟩]⟩ "d1" "t1").2.vectors
      = (⟨[⟨"d1", "t1"⟩], fun _ => [⟨"v1", "d1", [1]⟩]⟩ : StoreState).vectors :=
  (C10_delete_keeps_vectors ⟨[⟨"d1", "t1"⟩], fun _ => [⟨"v1", "d1", [1]⟩]⟩ "d1" "t1" rfl).1

end MultiLens
